import Mathlib

/-
Verification development for a small S-expression arithmetic interpreter
(`src/main.rs`): a tokenizer (`tokenize`), a recursive-descent parser
(`Parser::parse` / `Parser::parse_form`) and a tree-walking evaluator
(`Interpreter::evaluate`).

The Rust code is shallowly embedded as executable Lean functions:

* Rust `i64` values are modeled as `Int` together with explicit range
  checks (`i64InRange`); the checked-arithmetic semantics of `cargo run`
  (debug profile) is modeled, where an out-of-range intermediate result
  aborts the process.  Aborts (panics) are modeled as `Failure.panic`,
  recoverable `Result::Err` strings as `Failure.error`.  The exact Rust
  panic message texts are abbreviated to short descriptive tags.
* Strings are modeled as `List Char`.  The Rust scanner advances its
  byte cursor by `len_utf8` of each consumed char and re-slices at that
  byte offset, which is exactly a char-by-char traversal, so the
  char-list model is faithful.
-/

/- ===================== Tokenizer (`tokenize`, main.rs 47-111) ===================== -/

/-- The `TokenizerState` enum of the scanner. -/
inductive TokState where
  | start | lparen | rparen | number | symbol | ws
deriving DecidableEq, Repr

/-- The `TokenType` enum (the `Token` struct is a record holding exactly one
`TokenType`, so the wrapper is dropped). -/
inductive Token where
  | leftParen
  | rightParen
  | number (n : Int)
  | symbol (s : String)
deriving DecidableEq, Repr

/-- Outcome of fallible or aborting code: `error` models `Result::Err(msg)`,
`panic` models a process abort. -/
inductive Failure where
  | error (msg : String)
  | panic (msg : String)
deriving DecidableEq, Repr

/-- Rust char range pattern for decimal digits, code points 48-57. -/
def isDigitChar (c : Char) : Bool := 48 ≤ c.toNat && c.toNat ≤ 57

/-- Rust char range patterns for lowercase (97-122) and uppercase (65-90) ASCII letters. -/
def isAlphaChar (c : Char) : Bool :=
  (97 ≤ c.toNat && c.toNat ≤ 122) || (65 ≤ c.toNat && c.toNat ≤ 90)

/-- The four arithmetic operator characters accepted in symbols. -/
def isOpChar (c : Char) : Bool := c = '+' || c = '-' || c = '*' || c = '/'

/-- The Unicode White_Space code points, as recognized by Rust `char::is_whitespace`. -/
def rustIsWhitespace (c : Char) : Bool :=
  c.toNat ∈ ([9, 10, 11, 12, 13, 32, 0x85, 0xA0, 0x1680,
    0x2000, 0x2001, 0x2002, 0x2003, 0x2004, 0x2005, 0x2006, 0x2007,
    0x2008, 0x2009, 0x200A, 0x2028, 0x2029, 0x202F, 0x205F, 0x3000] : List Nat)

/-- The state transition computed per character by the scanner's `match state`:
`some next` means the scanner extends the current token and moves to `next`,
`none` means the inner loop breaks at this character. -/
def tokStep : TokState → Char → Option TokState
  | .start, c =>
    if c = '(' then some .lparen
    else if c = ')' then some .rparen
    else if isDigitChar c then some .number
    else if isAlphaChar c || isOpChar c then some .symbol
    else if rustIsWhitespace c then some .ws
    else none
  | .lparen, _ => none
  | .rparen, _ => none
  | .number, c => if isDigitChar c then some .number else none
  | .symbol, c => if isAlphaChar c || isDigitChar c || isOpChar c then some .symbol else none
  | .ws, c => if rustIsWhitespace c then some .ws else none

/-- The inner `for character in expr[start_index..].chars()` loop: starting in
state `s`, greedily consume characters while `tokStep` accepts them; return
the state at exit, the consumed prefix, and the unconsumed remainder. -/
def scanAux (s : TokState) : List Char → TokState × List Char × List Char
  | [] => (s, [], [])
  | c :: cs =>
    match tokStep s c with
    | some s2 =>
      let r := scanAux s2 cs
      (r.1, c :: r.2.1, r.2.2)
    | none => (s, [], c :: cs)

theorem scanAux_rest_length (s : TokState) (cs : List Char) :
    (scanAux s cs).2.2.length ≤ cs.length := by
  induction cs generalizing s with
  | nil => simp [scanAux]
  | cons c cs ih =>
    simp only [scanAux]
    cases tokStep s c with
    | some s2 => simpa using Nat.le_succ_of_le (ih s2)
    | none => simp

/-- Numeric value of a digit character (`'0'` has code point 48). -/
def digitVal (c : Char) : Nat := c.toNat - 48

/-- Value of a digit string, as computed by `str::parse::<i64>` on an
all-digit, sign-free slice. -/
def digitsVal (cs : List Char) : Nat := cs.foldl (fun a c => 10 * a + digitVal c) 0

/-- `i64::MAX` as a natural number, 2^63 - 1. -/
def i64MaxNat : Nat := 9223372036854775807

/-- `token_string.parse().unwrap()` aborts when the digit run's value
exceeds `i64::MAX` (`parse` returns `Err(PosOverflow)` and `unwrap` panics). -/
def panicLitMsg : String := "unwrap on integer literal overflowing i64"

theorem scanAux_start_rest_lt {cs : List Char} {s : TokState} {con rest : List Char}
    (h : scanAux .start cs = (s, con, rest)) (hs : s ≠ TokState.start) :
    rest.length < cs.length := by
  rcases cs with _ | ⟨c, cs⟩
  · simp [scanAux] at h
    exact absurd h.1.symm hs
  · simp only [scanAux] at h
    cases htc : tokStep .start c with
    | some s2 =>
      rw [htc] at h
      simp only [Prod.mk.injEq] at h
      have hlen := scanAux_rest_length s2 cs
      rw [← h.2.2]
      simp
      omega
    | none =>
      rw [htc] at h
      simp only [Prod.mk.injEq] at h
      exact absurd h.1.symm hs

/-- The outer `loop` of `tokenize`: run one scan from the cursor; a scan that
ends still in `Start` (end of input, or an unrecognized first character)
breaks the loop; a whitespace scan is discarded; other scans append the
corresponding token.  A digit run is converted with `parse().unwrap()`,
which aborts on overflow. -/
def tokenizeLoop (cs : List Char) : Except Failure (List Token) :=
  match h : scanAux .start cs with
  | (.start, _, _) => .ok []
  | (.lparen, _, rest) =>
    (tokenizeLoop rest).map (Token.leftParen :: ·)
  | (.rparen, _, rest) =>
    (tokenizeLoop rest).map (Token.rightParen :: ·)
  | (.number, con, rest) =>
    if digitsVal con ≤ i64MaxNat then
      (tokenizeLoop rest).map (Token.number (Int.ofNat (digitsVal con)) :: ·)
    else
      .error (.panic panicLitMsg)
  | (.symbol, con, rest) =>
    (tokenizeLoop rest).map (Token.symbol (String.mk con) :: ·)
  | (.ws, _, rest) => tokenizeLoop rest
termination_by cs.length
decreasing_by
  all_goals exact scanAux_start_rest_lt h (by simp)

/-- `tokenize(expr: &str) -> Vec<Token>`, with the abort on an overflowing
numeric literal made explicit in the result type. -/
def tokenize (s : String) : Except Failure (List Token) := tokenizeLoop s.data

/-- `stopsAt s cs` holds when a scan in state `s` consumes nothing from `cs`:
the input is exhausted or its first character is rejected by `tokStep`. -/
def stopsAt (s : TokState) (cs : List Char) : Bool :=
  match cs with
  | [] => true
  | c :: _ => (tokStep s c).isNone

theorem scanAux_stopsAt {s : TokState} {cs : List Char} (h : stopsAt s cs = true) :
    scanAux s cs = (s, [], cs) := by
  cases cs with
  | nil => simp [scanAux]
  | cons c cs =>
    simp only [stopsAt, Option.isNone_iff_eq_none] at h
    simp [scanAux, h]

theorem scanAux_lparen (cs : List Char) : scanAux .lparen cs = (.lparen, [], cs) :=
  scanAux_stopsAt (by cases cs <;> simp [stopsAt, tokStep])

theorem scanAux_rparen (cs : List Char) : scanAux .rparen cs = (.rparen, [], cs) :=
  scanAux_stopsAt (by cases cs <;> simp [stopsAt, tokStep])

/-- A scan in the `Number` state consumes exactly a maximal run of digits. -/
theorem scanAux_digits {ds rest : List Char} (hds : ∀ c ∈ ds, isDigitChar c = true)
    (hstop : stopsAt .number rest = true) :
    scanAux .number (ds ++ rest) = (.number, ds, rest) := by
  induction ds with
  | nil => simpa using scanAux_stopsAt hstop
  | cons d ds ih =>
    have hd : isDigitChar d = true := hds d (by simp)
    have hrec := ih (fun c hc => hds c (by simp [hc]))
    simp [scanAux, tokStep, hd, hrec]

/-- A digit is not a parenthesis, so in the `Start` state it opens a number scan. -/
theorem tokStep_start_digit {c : Char} (h : isDigitChar c = true) :
    tokStep .start c = some .number := by
  have h1 : c ≠ '(' := by
    intro he
    rw [he] at h
    simp [isDigitChar] at h
  have h2 : c ≠ ')' := by
    intro he
    rw [he] at h
    simp [isDigitChar] at h
  simp [tokStep, h1, h2, h]

/-- An ASCII letter or operator char is not a parenthesis nor a digit, so in
the `Start` state it opens a symbol scan. -/
theorem tokStep_start_symbol {c : Char} (h : (isAlphaChar c || isOpChar c) = true) :
    tokStep .start c = some .symbol := by
  have hn : (97 ≤ c.toNat ∧ c.toNat ≤ 122) ∨ (65 ≤ c.toNat ∧ c.toNat ≤ 90) ∨
      c.toNat = 43 ∨ c.toNat = 45 ∨ c.toNat = 42 ∨ c.toNat = 47 := by
    rw [Bool.or_eq_true] at h
    rcases h with h | h
    · simp only [isAlphaChar, Bool.or_eq_true, Bool.and_eq_true, decide_eq_true_eq] at h
      rcases h with h | h
      · exact Or.inl h
      · exact Or.inr (Or.inl h)
    · simp only [isOpChar, Bool.or_eq_true, decide_eq_true_eq] at h
      rcases h with ((h | h) | h) | h <;> subst h <;> simp
  have h1 : c ≠ '(' := by
    intro he
    have h40 : c.toNat = 40 := by rw [he]; rfl
    rcases hn with h | h | h | h | h | h <;> omega
  have h2 : c ≠ ')' := by
    intro he
    have h41 : c.toNat = 41 := by rw [he]; rfl
    rcases hn with h | h | h | h | h | h <;> omega
  have h3 : isDigitChar c = false := by
    rcases hn with h | h | h | h | h | h <;> (simp [isDigitChar]; omega)
  simp [tokStep, h1, h2, h3, h]

/-- Dispatch form of one iteration of the outer loop of `tokenize`: once the
scan result from the cursor is known, `tokenizeLoop` takes the corresponding
branch. -/
theorem tokenizeLoop_eq_of_scan {cs : List Char} {s : TokState} {con rest : List Char}
    (h : scanAux TokState.start cs = (s, con, rest)) :
    tokenizeLoop cs =
      match s with
      | .start => .ok []
      | .lparen => (tokenizeLoop rest).map (Token.leftParen :: ·)
      | .rparen => (tokenizeLoop rest).map (Token.rightParen :: ·)
      | .number =>
        if digitsVal con ≤ i64MaxNat then
          (tokenizeLoop rest).map (Token.number (Int.ofNat (digitsVal con)) :: ·)
        else .error (.panic panicLitMsg)
      | .symbol => (tokenizeLoop rest).map (Token.symbol (String.mk con) :: ·)
      | .ws => tokenizeLoop rest := by
  rw [tokenizeLoop.eq_def]
  split
  all_goals
    rename_i heq
    rw [h] at heq
    simp only [Prod.mk.injEq] at heq
    obtain ⟨h1, h2, h3⟩ := heq
    subst h1
    subst h2
    subst h3
    rfl

/-- One step of the outer loop: a `(` produces a `LeftParen` token. -/
theorem tokenizeLoop_lparen (cs : List Char) :
    tokenizeLoop ('(' :: cs) = (tokenizeLoop cs).map (Token.leftParen :: ·) := by
  rw [tokenizeLoop_eq_of_scan
    (show scanAux TokState.start ('(' :: cs) = (.lparen, ['('], cs) by
      simp [scanAux, tokStep, scanAux_lparen])]

/-- One step of the outer loop: a `)` produces a `RightParen` token. -/
theorem tokenizeLoop_rparen (cs : List Char) :
    tokenizeLoop (')' :: cs) = (tokenizeLoop cs).map (Token.rightParen :: ·) := by
  rw [tokenizeLoop_eq_of_scan
    (show scanAux TokState.start (')' :: cs) = (.rparen, [')'], cs) by
      simp [scanAux, tokStep, scanAux_rparen])]

/-- One step of the outer loop: a maximal digit run whose value fits in `i64`
produces a `Number` token. -/
theorem tokenizeLoop_number {d : Char} {ds rest : List Char}
    (hd : isDigitChar d = true) (hds : ∀ c ∈ ds, isDigitChar c = true)
    (hstop : stopsAt .number rest = true) (hle : digitsVal (d :: ds) ≤ i64MaxNat) :
    tokenizeLoop (d :: (ds ++ rest)) =
      (tokenizeLoop rest).map (Token.number (Int.ofNat (digitsVal (d :: ds))) :: ·) := by
  have hscan : scanAux TokState.start (d :: (ds ++ rest)) = (.number, d :: ds, rest) := by
    simp [scanAux, tokStep_start_digit hd, scanAux_digits hds hstop]
  rw [tokenizeLoop_eq_of_scan hscan]
  simp [hle]

/-- One step of the outer loop: a single symbol-start character whose scan
stops immediately afterwards produces a one-character `Symbol` token. -/
theorem tokenizeLoop_symbol_one {c : Char} {rest : List Char}
    (hc : (isAlphaChar c || isOpChar c) = true) (hstop : stopsAt .symbol rest = true) :
    tokenizeLoop (c :: rest) =
      (tokenizeLoop rest).map (Token.symbol (String.mk [c]) :: ·) := by
  have hscan : scanAux TokState.start (c :: rest) = (.symbol, [c], rest) := by
    simp [scanAux, tokStep_start_symbol hc, scanAux_stopsAt hstop]
  rw [tokenizeLoop_eq_of_scan hscan]

/-- One step of the outer loop: a single whitespace character whose scan stops
immediately afterwards is discarded. -/
theorem tokenizeLoop_ws_one {c : Char} {rest : List Char}
    (hcs : tokStep .start c = some .ws) (hstop : stopsAt .ws rest = true) :
    tokenizeLoop (c :: rest) = tokenizeLoop rest := by
  have hscan : scanAux TokState.start (c :: rest) = (.ws, [c], rest) := by
    simp [scanAux, hcs, scanAux_stopsAt hstop]
  rw [tokenizeLoop_eq_of_scan hscan]

/-- The outer loop breaks on exhausted input. -/
theorem tokenizeLoop_nil : tokenizeLoop [] = .ok [] := by
  rw [tokenizeLoop_eq_of_scan (show scanAux TokState.start [] = (.start, [], []) from rfl)]

/-- The outer loop breaks entirely when the character at a scan start is
recognized by no category: the remaining input is discarded. -/
theorem tokenizeLoop_stuck {c : Char} {cs : List Char} (h : tokStep .start c = none) :
    tokenizeLoop (c :: cs) = .ok [] := by
  rw [tokenizeLoop_eq_of_scan
    (show scanAux TokState.start (c :: cs) = (.start, [], c :: cs) by simp [scanAux, h])]

/- ===================== Decimal rendering of natural numbers =====================
Used to state properties about inputs of the form "(+ a b)" with `a` and `b`
written as decimal literals. -/

/-- The decimal digit character for `k < 10` (code point 48 + k). -/
def digitChar (k : Nat) : Char := Char.ofNat (48 + k)

/-- Standard decimal rendering, most significant digit first. -/
def natDigits (n : Nat) : List Char :=
  if n < 10 then [digitChar n]
  else natDigits (n / 10) ++ [digitChar (n % 10)]
termination_by n
decreasing_by exact Nat.div_lt_self (by omega) (by omega)

theorem digitChar_isDigit {k : Nat} (h : k < 10) : isDigitChar (digitChar k) = true := by
  interval_cases k <;> decide

theorem digitVal_digitChar {k : Nat} (h : k < 10) : digitVal (digitChar k) = k := by
  interval_cases k <;> decide

theorem natDigits_all_digits (n : Nat) : ∀ c ∈ natDigits n, isDigitChar c = true := by
  induction n using Nat.strong_induction_on with
  | _ n ih =>
    rw [natDigits]
    split
    · intro c hc
      rw [List.mem_singleton] at hc
      subst hc
      exact digitChar_isDigit (by omega)
    · intro c hc
      rw [List.mem_append] at hc
      rcases hc with hc | hc
      · exact ih (n / 10) (Nat.div_lt_self (by omega) (by omega)) c hc
      · rw [List.mem_singleton] at hc
        subst hc
        exact digitChar_isDigit (Nat.mod_lt n (by omega))

theorem digitsVal_append_singleton (xs : List Char) (c : Char) :
    digitsVal (xs ++ [c]) = 10 * digitsVal xs + digitVal c := by
  simp [digitsVal, List.foldl_append]

theorem digitsVal_natDigits (n : Nat) : digitsVal (natDigits n) = n := by
  induction n using Nat.strong_induction_on with
  | _ n ih =>
    rw [natDigits]
    split
    · rename_i h
      simp [digitsVal, digitVal_digitChar h]
    · rename_i h
      rw [digitsVal_append_singleton, ih (n / 10) (Nat.div_lt_self (by omega) (by omega)),
        digitVal_digitChar (Nat.mod_lt n (by omega))]
      omega

theorem natDigits_ne_nil (n : Nat) : natDigits n ≠ [] := by
  rw [natDigits]
  split <;> simp

/-- Tokenizing a rendered decimal literal (whose value fits in `i64`) followed
by input on which a number scan stops yields the corresponding `Number` token. -/
theorem tokenizeLoop_natDigits {n : Nat} {rest : List Char} (hle : n ≤ i64MaxNat)
    (hstop : stopsAt .number rest = true) :
    tokenizeLoop (natDigits n ++ rest) =
      (tokenizeLoop rest).map (Token.number (Int.ofNat n) :: ·) := by
  obtain ⟨d, ds, hcons⟩ : ∃ d ds, natDigits n = d :: ds := by
    cases h : natDigits n with
    | nil => exact absurd h (natDigits_ne_nil n)
    | cons d ds => exact ⟨d, ds, rfl⟩
  have hall := natDigits_all_digits n
  have hval : digitsVal (d :: ds) = n := by rw [← hcons]; exact digitsVal_natDigits n
  rw [hcons] at hall
  rw [hcons, List.cons_append,
    tokenizeLoop_number (hall d (by simp)) (fun c hc => hall c (by simp [hc])) hstop
      (by rw [hval]; exact hle), hval]

/- ===================== General tokenizer facts ===================== -/

/-- Every run of `tokenize` either returns a token list or aborts inside
`parse().unwrap()` on an over-wide numeric literal; no other failure exists. -/
theorem tokenizeLoop_total (cs : List Char) :
    (∃ ts, tokenizeLoop cs = .ok ts) ∨ tokenizeLoop cs = .error (.panic panicLitMsg) := by
  induction cs using tokenizeLoop.induct with
  | case1 cs con snd h => exact Or.inl ⟨[], by rw [tokenizeLoop_eq_of_scan h]⟩
  | case2 cs con rest h ih =>
    rw [tokenizeLoop_eq_of_scan h]
    rcases ih with ⟨ts, hts⟩ | hts
    · exact Or.inl ⟨Token.leftParen :: ts, by rw [hts]; rfl⟩
    · exact Or.inr (by rw [hts]; rfl)
  | case3 cs con rest h ih =>
    rw [tokenizeLoop_eq_of_scan h]
    rcases ih with ⟨ts, hts⟩ | hts
    · exact Or.inl ⟨Token.rightParen :: ts, by rw [hts]; rfl⟩
    · exact Or.inr (by rw [hts]; rfl)
  | case4 cs con rest h hle ih =>
    rw [tokenizeLoop_eq_of_scan h]
    simp only [hle, if_true]
    rcases ih with ⟨ts, hts⟩ | hts
    · exact Or.inl ⟨Token.number (Int.ofNat (digitsVal con)) :: ts, by rw [hts]; rfl⟩
    · exact Or.inr (by rw [hts]; rfl)
  | case5 cs con rest h hle =>
    rw [tokenizeLoop_eq_of_scan h]
    exact Or.inr (by simp [hle])
  | case6 cs con rest h ih =>
    rw [tokenizeLoop_eq_of_scan h]
    rcases ih with ⟨ts, hts⟩ | hts
    · exact Or.inl ⟨Token.symbol (String.mk con) :: ts, by rw [hts]; rfl⟩
    · exact Or.inr (by rw [hts]; rfl)
  | case7 cs con rest h ih =>
    rw [tokenizeLoop_eq_of_scan h]
    exact ih

/-- Number tokens only arise from digit runs, whose parsed value is a `Nat`
cast into `Int`: `tokenize` never emits a negative number token. -/
theorem tokenizeLoop_number_nonneg {cs : List Char} :
    ∀ {ts : List Token}, tokenizeLoop cs = .ok ts → ∀ n, Token.number n ∈ ts → 0 ≤ n := by
  induction cs using tokenizeLoop.induct with
  | case1 cs con snd h =>
    intro ts hts n hn
    rw [tokenizeLoop_eq_of_scan h] at hts
    obtain rfl : ([] : List Token) = ts := by injection hts
    simp at hn
  | case2 cs con rest h ih =>
    intro ts hts n hn
    rw [tokenizeLoop_eq_of_scan h] at hts
    rcases hrest : tokenizeLoop rest with f | ts2 <;> rw [hrest] at hts
    · injection hts
    · obtain rfl : Token.leftParen :: ts2 = ts := by injection hts
      rcases List.mem_cons.mp hn with hc | hc
      · cases hc
      · exact ih hrest n hc
  | case3 cs con rest h ih =>
    intro ts hts n hn
    rw [tokenizeLoop_eq_of_scan h] at hts
    rcases hrest : tokenizeLoop rest with f | ts2 <;> rw [hrest] at hts
    · injection hts
    · obtain rfl : Token.rightParen :: ts2 = ts := by injection hts
      rcases List.mem_cons.mp hn with hc | hc
      · cases hc
      · exact ih hrest n hc
  | case4 cs con rest h hle ih =>
    intro ts hts n hn
    rw [tokenizeLoop_eq_of_scan h] at hts
    simp only [hle, if_true] at hts
    rcases hrest : tokenizeLoop rest with f | ts2 <;> rw [hrest] at hts
    · injection hts
    · obtain rfl : Token.number (Int.ofNat (digitsVal con)) :: ts2 = ts := by injection hts
      rcases List.mem_cons.mp hn with hc | hc
      · obtain rfl : n = Int.ofNat (digitsVal con) := by injection hc
        exact Int.ofNat_nonneg _
      · exact ih hrest n hc
  | case5 cs con rest h hle =>
    intro ts hts n hn
    rw [tokenizeLoop_eq_of_scan h] at hts
    simp only [hle, if_false] at hts
    injection hts
  | case6 cs con rest h ih =>
    intro ts hts n hn
    rw [tokenizeLoop_eq_of_scan h] at hts
    rcases hrest : tokenizeLoop rest with f | ts2 <;> rw [hrest] at hts
    · injection hts
    · obtain rfl : Token.symbol (String.mk con) :: ts2 = ts := by injection hts
      rcases List.mem_cons.mp hn with hc | hc
      · cases hc
      · exact ih hrest n hc
  | case7 cs con rest h ih =>
    intro ts hts n hn
    rw [tokenizeLoop_eq_of_scan h] at hts
    exact ih hts n hn

/- ===================== AST (`LispExpr`, main.rs 17-22) ===================== -/

/-- The `LispExpr` AST. -/
inductive LispExpr where
  | number (n : Int)
  | symbol (s : String)
  | list (vs : List LispExpr)
deriving Repr

/- ===================== Parser (`Parser`, main.rs 113-166) ===================== -/

/-- Parse-error message for an exhausted stream. -/
def msgInvalidExpression : String := "Invalid expression"

/-- Parse-error message for a top-level right parenthesis. -/
def msgUnexpectedRightParen : String := "Unexpected right paren found."

mutual

/-- `Parser::parse`: consume the next token and dispatch.  The token stream is
passed explicitly; alongside the parsed expression the unconsumed remainder is
returned (carrying, as a modeling artifact needed for termination, the fact
that at least one token was consumed). -/
def parseExpr (ts : List Token) :
    Except String (LispExpr × {r : List Token // r.length < ts.length}) :=
  match ts with
  | [] => .error msgInvalidExpression
  | .rightParen :: _ => .error msgUnexpectedRightParen
  | .number n :: rest => .ok (.number n, ⟨rest, by simp⟩)
  | .symbol s :: rest => .ok (.symbol s, ⟨rest, by simp⟩)
  | .leftParen :: rest =>
    match rest with
    | [] => .error msgInvalidExpression
    | t :: rest2 =>
      match parseFormLoop [] (t :: rest2) with
      | .error e => .error e
      | .ok (e, ⟨r, hr⟩) =>
        .ok (e, ⟨r, by simpa using Nat.lt_succ_of_le hr⟩)
termination_by (ts.length, 0)

/-- The `while let Some(token) = self.token_stream.peek()` loop of
`Parser::parse_form`, with `acc` the elements parsed so far (in reverse).
When the loop exits because the next token is a right parenthesis, that token
is consumed; when it exits because the stream is exhausted, the trailing
`self.token_stream.next()` consumes nothing and the form is closed anyway. -/
def parseFormLoop (acc : List LispExpr) (ts : List Token) :
    Except String (LispExpr × {r : List Token // r.length ≤ ts.length}) :=
  match ts with
  | [] => .ok (.list acc.reverse, ⟨[], by simp⟩)
  | .rightParen :: rest => .ok (.list acc.reverse, ⟨rest, by simp⟩)
  | t :: rest =>
    match parseExpr (t :: rest) with
    | .error e => .error e
    | .ok (v, ⟨r, hr⟩) =>
      match parseFormLoop (v :: acc) r with
      | .error e => .error e
      | .ok (e2, ⟨r2, h2⟩) =>
        .ok (e2, ⟨r2, le_trans h2 (Nat.le_of_lt hr)⟩)
termination_by (ts.length, 1)

end

/-- `Parser::new(tokens).parse()`: the parse entry point as called by `main`,
which keeps only the expression (trailing tokens are ignored). -/
def parse (ts : List Token) : Except String LispExpr :=
  match parseExpr ts with
  | .error e => .error e
  | .ok (e, _) => .ok e

/- ===================== Evaluator (`Interpreter::evaluate`, main.rs 175-280) ===================== -/

/-- `i64::MIN`, -2^63. -/
def i64Min : Int := -9223372036854775808

/-- `i64::MAX`, 2^63 - 1. -/
def i64Max : Int := 9223372036854775807

/-- Whether a value fits in `i64`. -/
def i64InRange (n : Int) : Bool := decide (i64Min ≤ n) && decide (n ≤ i64Max)

def panicIndexMsg : String := "index out of bounds"
def panicAddMsg : String := "attempt to add with overflow"
def panicSubMsg : String := "attempt to subtract with overflow"
def panicMulMsg : String := "attempt to multiply with overflow"
def panicNegMsg : String := "attempt to negate with overflow"
def panicDivZeroMsg : String := "attempt to divide by zero"
def panicDivOverflowMsg : String := "attempt to divide with overflow"

/-- Checked `i64` addition: `acc + number` with overflow abort. -/
def i64Add (a b : Int) : Except Failure Int :=
  if i64InRange (a + b) then .ok (a + b) else .error (.panic panicAddMsg)

/-- Checked `i64` subtraction. -/
def i64Sub (a b : Int) : Except Failure Int :=
  if i64InRange (a - b) then .ok (a - b) else .error (.panic panicSubMsg)

/-- Checked `i64` multiplication. -/
def i64Mul (a b : Int) : Except Failure Int :=
  if i64InRange (a * b) then .ok (a * b) else .error (.panic panicMulMsg)

/-- Checked `i64` negation (`-initial_value`). -/
def i64Neg (a : Int) : Except Failure Int :=
  if i64InRange (-a) then .ok (-a) else .error (.panic panicNegMsg)

/-- `i64` division: truncating (`Int.tdiv` rounds toward zero, as Rust `/`
does); a zero divisor aborts in every build profile, as does the single
overflowing case `i64::MIN / -1`. -/
def i64Div (a b : Int) : Except Failure Int :=
  if b = 0 then .error (.panic panicDivZeroMsg)
  else if i64InRange (Int.tdiv a b) then .ok (Int.tdiv a b)
  else .error (.panic panicDivOverflowMsg)

/-- The four operator strings dispatched on by `evaluate`. -/
inductive ArithOp where
  | add | sub | mul | div
deriving DecidableEq, Repr

/-- The error message `"Invalid <op> operation"` of each operator's fold. -/
def opMsg : ArithOp → String
  | .add => "Invalid + operation"
  | .sub => "Invalid - operation"
  | .mul => "Invalid * operation"
  | .div => "Invalid / operation"

/-- The accumulator step of each operator's fold. -/
def opApply : ArithOp → Int → Int → Except Failure Int
  | .add, a, b => i64Add a b
  | .sub, a, b => i64Sub a b
  | .mul, a, b => i64Mul a b
  | .div, a, b => i64Div a b

mutual

/-- `Interpreter::evaluate`.  `values[0]` on an empty `Vec` is an
out-of-bounds index, i.e. an abort. -/
def evaluate : LispExpr → Except Failure LispExpr
  | .number n => .ok (.number n)
  | .symbol s => .ok (.symbol s)
  | .list [] => .error (.panic panicIndexMsg)
  | .list (v :: vs) => evalList v vs

/-- Dispatch on the first element of a non-empty `List`: the
`match values[0] { Symbol(symbol) => match &symbol[..] { ... }, _ => ... }`
of `evaluate`.  A head that is not a symbol, or a symbol that is none of the
four operators, returns the list unchanged. -/
def evalList (v : LispExpr) (vs : List LispExpr) : Except Failure LispExpr :=
  match v with
  | .symbol s =>
    if s = "+" then evalPlus vs
    else if s = "-" then evalMinus vs
    else if s = "/" then evalDiv vs
    else if s = "*" then evalMul vs
    else .ok (.list (.symbol s :: vs))
  | _ => .ok (.list (v :: vs))

/-- The `"+"` branch: fold the evaluated operands from 0. -/
def evalPlus (vs : List LispExpr) : Except Failure LispExpr :=
  match evalFold .add 0 vs with
  | .ok sum => .ok (.number sum)
  | .error f => .error f

/-- The `"-"` branch.  `values[1]` on a one-element `values` is an
out-of-bounds index, i.e. an abort.  With exactly two elements the operand
is evaluated (twice in the Rust code; evaluation is pure, so once suffices)
and, when it is a number, negated; otherwise the code falls through to the
general path, which folds subtraction over `values[2..]` from the first
operand's value and reports `"Invalid - operation"` for a first operand that
is not a number. -/
def evalMinus (vs : List LispExpr) : Except Failure LispExpr :=
  match vs with
  | [] => .error (.panic panicIndexMsg)
  | a1 :: rest =>
    match evaluate a1 with
    | .error (Failure.panic m) => .error (.panic m)
    | .ok (.number n) =>
      if rest.isEmpty then
        match i64Neg n with
        | .ok r => .ok (.number r)
        | .error f => .error f
      else
        match evalFold .sub n rest with
        | .ok r => .ok (.number r)
        | .error f => .error f
    | _ => .error (.error (opMsg .sub))

/-- The `"/"` branch: `values.len() < 3` is rejected before anything is
evaluated; otherwise fold division over `values[2..]` from the first
operand's value. -/
def evalDiv (vs : List LispExpr) : Except Failure LispExpr :=
  match vs with
  | a1 :: a2 :: rest =>
    match evaluate a1 with
    | .error (Failure.panic m) => .error (.panic m)
    | .ok (.number n) =>
      match evalFold .div n (a2 :: rest) with
      | .ok r => .ok (.number r)
      | .error f => .error f
    | _ => .error (.error (opMsg .div))
  | _ => .error (.error (opMsg .div))

/-- The `"*"` branch: same shape as the `"/"` branch with multiplication. -/
def evalMul (vs : List LispExpr) : Except Failure LispExpr :=
  match vs with
  | a1 :: a2 :: rest =>
    match evaluate a1 with
    | .error (Failure.panic m) => .error (.panic m)
    | .ok (.number n) =>
      match evalFold .mul n (a2 :: rest) with
      | .ok r => .ok (.number r)
      | .error f => .error f
    | _ => .error (.error (opMsg .mul))
  | _ => .error (.error (opMsg .mul))

/-- The `values[..].iter().map(|ast| self.evaluate(ast.clone())).try_fold(acc, ...)`
pattern shared by the four operators: operands are evaluated lazily
left-to-right; the first closure `Err` stops the fold, and a panic during an
operand's evaluation (or in the checked arithmetic) propagates as an abort.
An operand that evaluates to a non-number, or to a recoverable error, makes
the closure return `Err("Invalid <op> operation")`. -/
def evalFold (op : ArithOp) (acc : Int) : List LispExpr → Except Failure Int
  | [] => .ok acc
  | a :: rest =>
    match evaluate a with
    | .error (Failure.panic m) => .error (.panic m)
    | .ok (.number n) =>
      match opApply op acc n with
      | .ok acc2 => evalFold op acc2 rest
      | .error f => .error f
    | _ => .error (.error (opMsg op))

end

/- ===================== Evaluator lemmas ===================== -/

/-- Specification-level checked fold over operand values already known to be
numbers: `some` is the accumulated result, `none` an arithmetic abort. -/
def foldSpec (op : ArithOp) : Int → List Int → Option Int
  | acc, [] => some acc
  | acc, n :: ns =>
    match opApply op acc n with
    | .ok acc2 => foldSpec op acc2 ns
    | .error _ => none

/-- Operand `a` evaluates to the number `n`. -/
def EvalsToNum (a : LispExpr) (n : Int) : Prop := evaluate a = .ok (.number n)

/-- The operand's evaluation lands in the catch-all arm of a try_fold
closure: a value that is not a number, or a recoverable error. -/
def NotNumberResult (a : LispExpr) : Prop :=
  (∃ w, evaluate a = .ok w ∧ ∀ k, w ≠ LispExpr.number k) ∨
  (∃ m, evaluate a = .error (.error m))

theorem evalFold_ok {op : ArithOp} {args : List LispExpr} {ns : List Int}
    (hf : List.Forall₂ EvalsToNum args ns) :
    ∀ {acc r : Int}, foldSpec op acc ns = some r → evalFold op acc args = .ok r := by
  induction hf with
  | nil =>
    intro acc r hs
    obtain rfl : acc = r := by injection hs
    simp [evalFold]
  | cons ha htail ih =>
    intro acc r hs
    rename_i a n args2 ns2
    rw [foldSpec] at hs
    rcases hop : opApply op acc n with f | acc2 <;> rw [hop] at hs
    · cases hs
    · simp only at hs
      have ha2 : evaluate a = .ok (.number n) := ha
      simp only [evalFold, ha2, hop]
      exact ih hs

theorem evalFold_err {op : ArithOp} {a : LispExpr} (ha : NotNumberResult a)
    {pre : List LispExpr} {ns : List Int} (hf : List.Forall₂ EvalsToNum pre ns) :
    ∀ {acc acc2 : Int} {rest : List LispExpr}, foldSpec op acc ns = some acc2 →
      evalFold op acc (pre ++ a :: rest) = .error (.error (opMsg op)) := by
  induction hf with
  | nil =>
    intro acc acc2 rest _
    rcases ha with ⟨w, hw, hnk⟩ | ⟨m, hm⟩
    · cases w with
      | number k => exact absurd rfl (hnk k)
      | symbol s => simp [evalFold, hw]
      | list l => simp [evalFold, hw]
    · simp [evalFold, hm]
  | cons hp htail ih =>
    intro acc acc2 rest hs
    rename_i p n pre2 ns2
    rw [foldSpec] at hs
    rcases hop : opApply op acc n with f | a2 <;> rw [hop] at hs
    · cases hs
    · simp only at hs
      have hp2 : evaluate p = .ok (.number n) := hp
      simp only [List.cons_append, evalFold, hp2, hop]
      exact ih hs

/-- When the checked additive fold succeeds it computes the plain sum. -/
theorem foldSpec_add_sum {ns : List Int} :
    ∀ {acc r : Int}, foldSpec .add acc ns = some r →
      r = ns.foldl (fun x y => x + y) acc := by
  induction ns with
  | nil =>
    intro acc r hs
    obtain rfl : acc = r := by injection hs
    rfl
  | cons n ns ih =>
    intro acc r hs
    rw [foldSpec] at hs
    rcases hop : opApply .add acc n with f | acc2 <;> rw [hop] at hs
    · cases hs
    · simp only at hs
      have hacc2 : acc2 = acc + n := by
        rw [opApply, i64Add] at hop
        split at hop
        · injection hop with h2; rw [← h2]
        · cases hop
      rw [List.foldl_cons, ← hacc2]
      exact ih hs

/-- When the checked subtractive fold succeeds it computes the plain
left-to-right difference. -/
theorem foldSpec_sub_sum {ns : List Int} :
    ∀ {acc r : Int}, foldSpec .sub acc ns = some r →
      r = ns.foldl (fun x y => x - y) acc := by
  induction ns with
  | nil =>
    intro acc r hs
    obtain rfl : acc = r := by injection hs
    rfl
  | cons n ns ih =>
    intro acc r hs
    rw [foldSpec] at hs
    rcases hop : opApply .sub acc n with f | acc2 <;> rw [hop] at hs
    · cases hs
    · simp only at hs
      have hacc2 : acc2 = acc - n := by
        rw [opApply, i64Sub] at hop
        split at hop
        · injection hop with h2; rw [← h2]
        · cases hop
      rw [List.foldl_cons, ← hacc2]
      exact ih hs

/-- Whether the head of a list resolves to one of the four operators. -/
def headOperator : LispExpr → Bool
  | .symbol s => s = "+" || s = "-" || s = "/" || s = "*"
  | _ => false

/- ===================== Pipeline (`main`, main.rs 283-313) ===================== -/

/-- One iteration of the host loop on one input line: tokenize, parse,
evaluate, surfacing the first failure. -/
def run (s : String) : Except Failure LispExpr :=
  match tokenize s with
  | .error f => .error f
  | .ok ts =>
    match parse ts with
    | .error msg => .error (.error msg)
    | .ok ast => evaluate ast

/-- `tokenize` then `parse` only (the part of the pipeline before `evaluate`). -/
def runParse (s : String) : Except Failure LispExpr :=
  match tokenize s with
  | .error f => .error f
  | .ok ts =>
    match parse ts with
    | .error msg => .error (.error msg)
    | .ok ast => .ok ast

/- ===================== Model validation on the examples documented in the source ===================== -/

example : tokenize "(+ 1 2)" = .ok
    [Token.leftParen, Token.symbol "+", Token.number 1, Token.number 2, Token.rightParen] := by
  simp [tokenize, tokenizeLoop, scanAux, tokStep, isDigitChar, isAlphaChar, isOpChar,
    rustIsWhitespace, digitsVal, digitVal, i64MaxNat, Except.map]

example : parse
    [Token.leftParen, Token.symbol "+", Token.number 1, Token.number 2, Token.rightParen] =
    .ok (.list [.symbol "+", .number 1, .number 2]) := by
  simp [parse, parseExpr, parseFormLoop]

example : evaluate (.list [.symbol "+", .number 1, .number 2]) = .ok (.number 3) := by
  simp [evaluate, evalList, evalPlus, evalFold, opApply, i64Add, i64InRange, i64Min, i64Max]

example : evaluate (.list [.symbol "-", .list [.symbol "+", .list [.symbol "/", .number 100,
    .number 5], .list [.symbol "*", .number 2, .number 6]], .number 10]) =
    .ok (.number 22) := by
  simp [evaluate, evalList, evalPlus, evalMinus, evalDiv, evalMul, evalFold, opApply,
    i64Add, i64Sub, i64Mul, i64Div, i64InRange, i64Min, i64Max, Int.tdiv]

example : evaluate (.list [.symbol "/", .number 7, .number 2]) = .ok (.number 3) := by
  simp [evaluate, evalList, evalDiv, evalFold, opApply, i64Div, i64InRange, i64Min, i64Max,
    Int.tdiv]

/- ===================== Helper facts for whitespace and digits ===================== -/

theorem rustIsWhitespace_digit_false {c : Char} (h : isDigitChar c = true) :
    rustIsWhitespace c = false := by
  simp only [isDigitChar, Bool.and_eq_true, decide_eq_true_eq] at h
  simp only [rustIsWhitespace, List.mem_cons, List.not_mem_nil, or_false,
    decide_eq_false_iff_not]
  omega

theorem natDigits_cons (n : Nat) : ∃ d ds, natDigits n = d :: ds := by
  cases h : natDigits n with
  | nil => exact absurd h (natDigits_ne_nil n)
  | cons d ds => exact ⟨d, ds, rfl⟩

/-- A whitespace scan stops at the head of a rendered decimal literal. -/
theorem stopsAt_ws_natDigits (n : Nat) (X : List Char) :
    stopsAt .ws (natDigits n ++ X) = true := by
  obtain ⟨d, ds, hcons⟩ := natDigits_cons n
  have hd : isDigitChar d = true := natDigits_all_digits n d (by rw [hcons]; simp)
  rw [hcons]
  simp [stopsAt, tokStep, rustIsWhitespace_digit_false hd]

/- ===================== Claims ===================== -/

/-- C1: the claim says that exhausting the token stream while a form is still
open (the tokens of "(+ 1 2") makes `parse` return a parse error.  The code
does the opposite: `parse_form`'s peek loop exits silently on exhaustion, the
trailing `next()` consumes nothing, and the form is closed successfully.  This
theorem evaluates the pipeline at the failing input: tokenizing and parsing
"(+ 1 2" succeeds and returns the silently closed list. -/
theorem claim_C1_unbalanced_input_parses_successfully :
    runParse "(+ 1 2" = .ok (.list [.symbol "+", .number 1, .number 2]) := by
  have ht : tokenize "(+ 1 2" = .ok
      [Token.leftParen, Token.symbol "+", Token.number 1, Token.number 2] := by
    simp [tokenize, tokenizeLoop, scanAux, tokStep, isDigitChar, isAlphaChar, isOpChar,
      rustIsWhitespace, digitsVal, digitVal, i64MaxNat, Except.map]
  have hp : parse [Token.leftParen, Token.symbol "+", Token.number 1, Token.number 2] =
      .ok (.list [.symbol "+", .number 1, .number 2]) := by
    simp [parse, parseExpr, parseFormLoop]
  simp [runParse, ht, hp]

/-- C2: the claim says a `/` form with a zero among the operands after the
first returns an evaluation error and never crashes.  The code computes
`acc / number` unguarded, and Rust's `i64` division by zero aborts the
process.  This theorem evaluates the pipeline at the failing input "(/ 5 0)":
the result is the division-by-zero abort, not a recoverable error. -/
theorem claim_C2_division_by_zero_aborts :
    run "(/ 5 0)" = .error (.panic panicDivZeroMsg) := by
  have ht : tokenize "(/ 5 0)" = .ok [Token.leftParen, Token.symbol "/", Token.number 5,
      Token.number 0, Token.rightParen] := by
    simp [tokenize, tokenizeLoop, scanAux, tokStep, isDigitChar, isAlphaChar, isOpChar,
      rustIsWhitespace, digitsVal, digitVal, i64MaxNat, Except.map]
  have hp : parse [Token.leftParen, Token.symbol "/", Token.number 5, Token.number 0,
      Token.rightParen] = .ok (.list [.symbol "/", .number 5, .number 0]) := by
    simp [parse, parseExpr, parseFormLoop]
  have he : evaluate (.list [.symbol "/", .number 5, .number 0]) =
      .error (.panic panicDivZeroMsg) := by
    simp [evaluate, evalList, evalDiv, evalFold, opApply, i64Div]
  simp [run, ht, hp, he]

/-- C4: the claim says evaluating an empty `List` returns an error result
rather than crashing.  The code immediately reads `values[0]`, an
out-of-bounds index on an empty `Vec`, which aborts the process.  This
theorem evaluates the code at the failing input: the empty list aborts. -/
theorem claim_C4_empty_list_evaluation_aborts :
    evaluate (.list []) = .error (.panic panicIndexMsg) := by
  simp [evaluate]

/-- C9: a non-empty `List` whose first element is not a `Symbol`, or is a
`Symbol` other than the four operators, evaluates to itself verbatim (no
error, no evaluation of sub-elements), and therefore evaluating the result
again yields the same outcome. -/
theorem claim_C9_unknown_head_is_inert (v : LispExpr) (vs : List LispExpr)
    (h : headOperator v = false) :
    evaluate (.list (v :: vs)) = .ok (.list (v :: vs)) ∧
    (evaluate (.list (v :: vs))).bind evaluate = evaluate (.list (v :: vs)) := by
  have h1 : evaluate (.list (v :: vs)) = .ok (.list (v :: vs)) := by
    cases v with
    | number n => simp [evaluate, evalList]
    | symbol s =>
      simp only [headOperator, Bool.or_eq_false_iff, decide_eq_false_iff_not] at h
      simp [evaluate, evalList, h.1.1.1, h.1.1.2, h.1.2, h.2]
    | list l => simp [evaluate, evalList]
  refine ⟨h1, ?_⟩
  rw [h1, Except.bind, h1]

/-- C9 witness: the spec's own example `(foo 1 2)` is returned verbatim and
is a fixed point of evaluation. -/
theorem claim_C9_witness :
    evaluate (.list [.symbol "foo", .number 1, .number 2]) =
      .ok (.list [.symbol "foo", .number 1, .number 2]) ∧
    (evaluate (.list [.symbol "foo", .number 1, .number 2])).bind evaluate =
      evaluate (.list [.symbol "foo", .number 1, .number 2]) :=
  claim_C9_unknown_head_is_inert (.symbol "foo") [.number 1, .number 2] (by decide)

/-- C10: `tokenize` never produces a negative `Number` token — number tokens
arise only from digit runs, parsed as nonnegative values — and a leading `-`
begins a `Symbol` token, so "-5" lexes as the single token `Symbol("-5")`. -/
theorem claim_C10_no_negative_number_tokens :
    (∀ s ts, tokenize s = .ok ts → ∀ n, Token.number n ∈ ts → 0 ≤ n) ∧
    tokenize "-5" = .ok [Token.symbol "-5"] := by
  constructor
  · intro s ts hts n hn
    exact tokenizeLoop_number_nonneg hts n hn
  · simp [tokenize, tokenizeLoop, scanAux, tokStep, isDigitChar, isAlphaChar, isOpChar,
      rustIsWhitespace, Except.map]

/-- C10 witness: instantiating the universal part on the input "7". -/
theorem claim_C10_witness : (0 : Int) ≤ 7 :=
  claim_C10_no_negative_number_tokens.1 "7" [Token.number 7]
    (by simp [tokenize, tokenizeLoop, scanAux, tokStep, isDigitChar, isAlphaChar, isOpChar,
      rustIsWhitespace, digitsVal, digitVal, i64MaxNat, Except.map])
    7 (by simp)

/-- C6 counterexample: the claim says `tokenize` never fails and that an
unrecognized character is skipped with scanning continuing on the rest of the
input.  Both parts fail on the code: on "a.b" the scanner stops dead at `.`
and discards "b" (the claim would require `Symbol("b")` to be produced), and
on the 19-digit literal 9223372036854775808 = 2^63 the `parse().unwrap()`
aborts, so `tokenize` does fail. -/
theorem claim_C6_counterexample :
    tokenize "a.b" = .ok [Token.symbol "a"] ∧
    tokenize "9223372036854775808" = .error (.panic panicLitMsg) := by
  constructor
  · simp [tokenize, tokenizeLoop, scanAux, tokStep, isDigitChar, isAlphaChar, isOpChar,
      rustIsWhitespace, Except.map]
  · simp [tokenize, tokenizeLoop, scanAux, tokStep, isDigitChar, isAlphaChar, isOpChar,
      rustIsWhitespace, digitsVal, digitVal, i64MaxNat, Except.map]

/-- C6 (amended): `tokenize` terminates on every input; an unrecognized
character at a scan start stops tokenization entirely, returning the tokens
already produced and discarding the rest of the input; and the only failure
is the abort on a numeric literal exceeding `i64::MAX` — every run either
returns a token list or aborts with that panic. -/
theorem claim_C6_amended :
    (∀ c cs, tokStep .start c = none → tokenizeLoop (c :: cs) = .ok []) ∧
    (∀ s, (∃ ts, tokenize s = .ok ts) ∨ tokenize s = .error (.panic panicLitMsg)) :=
  ⟨fun c cs h => tokenizeLoop_stuck h, fun s => tokenizeLoop_total s.data⟩

/-- C6 witness: scanning stuck at `.` returns no tokens and ignores the
remaining "5". -/
theorem claim_C6_witness : tokenizeLoop ['.', '5'] = .ok [] :=
  claim_C6_amended.1 '.' ['5'] (by decide)

/-- C5 counterexample: evaluating `(/ 1)` fails with "Invalid / operation",
but wrapping it as `(+ (/ 1) 1)` reports "Invalid + operation": the enclosing
`+` replaces the inner message instead of propagating it unchanged, contrary
to the claim's example. -/
theorem claim_C5_counterexample :
    evaluate (.list [.symbol "/", .number 1]) = .error (.error "Invalid / operation") ∧
    evaluate (.list [.symbol "+", .list [.symbol "/", .number 1], .number 1]) =
      .error (.error "Invalid + operation") := by
  have hinner : evaluate (.list [.symbol "/", .number 1]) =
      .error (.error "Invalid / operation") := by
    simp [evaluate, evalList, evalDiv, opMsg]
  exact ⟨hinner, by simp [evaluate, evalList, evalPlus, evalFold, hinner, opMsg]⟩

/-- C5 (amended): when an operand of an arithmetic form fails to evaluate
with a recoverable error, the failure does abort the remaining work at that
depth, but the message is not propagated unchanged: each of the four
operators reports its own "Invalid <op> operation" instead of the inner
message (process aborts, by contrast, do propagate). -/
theorem claim_C5_amended (e : LispExpr) (rest : List LispExpr) (m : String)
    (h : evaluate e = .error (.error m)) :
    evaluate (.list (.symbol "+" :: e :: rest)) = .error (.error "Invalid + operation") ∧
    evaluate (.list (.symbol "-" :: e :: rest)) = .error (.error "Invalid - operation") ∧
    evaluate (.list (.symbol "/" :: e :: rest)) = .error (.error "Invalid / operation") ∧
    evaluate (.list (.symbol "*" :: e :: rest)) = .error (.error "Invalid * operation") := by
  refine ⟨?_, ?_, ?_, ?_⟩
  · simp [evaluate, evalList, evalPlus, evalFold, h, opMsg]
  · simp [evaluate, evalList, evalMinus, h, opMsg]
  · cases rest <;> simp [evaluate, evalList, evalDiv, h, opMsg]
  · cases rest <;> simp [evaluate, evalList, evalMul, h, opMsg]

/-- C5 witness: instantiating the amended claim at the failing operand
`(/ 1)` with one further operand. -/
theorem claim_C5_witness :
    evaluate (.list (.symbol "+" :: LispExpr.list [.symbol "/", .number 1] :: [.number 1])) =
      .error (.error "Invalid + operation") ∧
    evaluate (.list (.symbol "-" :: LispExpr.list [.symbol "/", .number 1] :: [.number 1])) =
      .error (.error "Invalid - operation") ∧
    evaluate (.list (.symbol "/" :: LispExpr.list [.symbol "/", .number 1] :: [.number 1])) =
      .error (.error "Invalid / operation") ∧
    evaluate (.list (.symbol "*" :: LispExpr.list [.symbol "/", .number 1] :: [.number 1])) =
      .error (.error "Invalid * operation") :=
  claim_C5_amended (.list [.symbol "/", .number 1]) [.number 1] "Invalid / operation"
    (by simp [evaluate, evalList, evalDiv, opMsg])

/-- C7 counterexample: a `+` form whose operands all reduce to numbers but
whose sum leaves the `i64` range does not return the sum — the checked
addition aborts (debug-profile overflow panic; unchecked builds would wrap,
also differing from the mathematical sum). -/
theorem claim_C7_counterexample :
    evaluate (.list [.symbol "+", .number i64Max, .number 1]) = .error (.panic panicAddMsg) ∧
    evaluate (.list [.symbol "+", .number i64Max, .number 1]) ≠
      .ok (.number (i64Max + 1)) := by
  have h : evaluate (.list [.symbol "+", .number i64Max, .number 1]) =
      .error (.panic panicAddMsg) := by
    simp [evaluate, evalList, evalPlus, evalFold, opApply, i64Add, i64InRange, i64Min, i64Max]
  exact ⟨h, by rw [h]; simp⟩

/-- C7 (amended): a `+` form evaluates its operands left-to-right; when every
operand reduces to a number and the checked fold from accumulator 0 succeeds
(each intermediate sum within `i64`), the result is the number computed by
that fold, which equals the plain sum; zero operands yield `Number(0)`; an
operand whose evaluation is a non-number value or a recoverable error (after
a numeric, in-range prefix) yields the error "Invalid + operation". -/
theorem claim_C7_amended :
    (∀ args ns r, List.Forall₂ EvalsToNum args ns → foldSpec .add 0 ns = some r →
      evaluate (.list (.symbol "+" :: args)) = .ok (.number r) ∧
      r = ns.foldl (fun x y => x + y) 0) ∧
    evaluate (.list [.symbol "+"]) = .ok (.number 0) ∧
    (∀ pre ns acc a rest, List.Forall₂ EvalsToNum pre ns → foldSpec .add 0 ns = some acc →
      NotNumberResult a →
      evaluate (.list (.symbol "+" :: (pre ++ a :: rest))) =
        .error (.error "Invalid + operation")) := by
  refine ⟨?_, ?_, ?_⟩
  · intro args ns r hf hs
    have hfold := evalFold_ok hf hs
    exact ⟨by simp [evaluate, evalList, evalPlus, hfold], foldSpec_add_sum hs⟩
  · simp [evaluate, evalList, evalPlus, evalFold]
  · intro pre ns acc a rest hf hs ha
    have hfold : evalFold .add 0 (pre ++ a :: rest) = .error (.error (opMsg .add)) :=
      evalFold_err ha hf hs
    simp [evaluate, evalList, evalPlus, hfold, opMsg]

/-- C7 witness: instantiating the sum part on `(+ 1 2)`. -/
theorem claim_C7_witness :
    evaluate (.list (.symbol "+" :: [LispExpr.number 1, LispExpr.number 2])) =
      .ok (.number 3) ∧
    (3 : Int) = ([1, 2] : List Int).foldl (fun x y => x + y) 0 :=
  claim_C7_amended.1 [.number 1, .number 2] [1, 2] 3
    (List.Forall₂.cons (by simp [EvalsToNum, evaluate])
      (List.Forall₂.cons (by simp [EvalsToNum, evaluate]) List.Forall₂.nil))
    rfl

/-- C8 counterexample: the unary negation of `Number(i64::MIN)` cannot be the
mathematical negation 2^63 (not representable): the checked negation aborts
(unchecked builds would wrap back to `i64::MIN`, also differing). -/
theorem claim_C8_counterexample :
    evaluate (.list [.symbol "-", .number i64Min]) = .error (.panic panicNegMsg) ∧
    evaluate (.list [.symbol "-", .number i64Min]) ≠ .ok (.number (-i64Min)) := by
  have h : evaluate (.list [.symbol "-", .number i64Min]) = .error (.panic panicNegMsg) := by
    simp [evaluate, evalList, evalMinus, i64Neg, i64InRange, i64Min, i64Max]
  exact ⟨h, by rw [h]; simp⟩

/-- C8 (amended): a `-` form with exactly one operand that evaluates to a
number returns its negation provided the negation stays within `i64`; with
two or more operands it folds checked subtraction left-to-right from the
first operand's value, and when that fold succeeds the result equals the
plain left-to-right difference. -/
theorem claim_C8_amended :
    (∀ a n, evaluate a = .ok (.number n) → i64InRange (-n) = true →
      evaluate (.list [.symbol "-", a]) = .ok (.number (-n))) ∧
    (∀ a n args ns r, evaluate a = .ok (.number n) →
      List.Forall₂ EvalsToNum args ns → args ≠ [] → foldSpec .sub n ns = some r →
      evaluate (.list (.symbol "-" :: a :: args)) = .ok (.number r) ∧
      r = ns.foldl (fun x y => x - y) n) := by
  constructor
  · intro a n ha hr
    simp [evaluate, evalList, evalMinus, ha, i64Neg, hr]
  · intro a n args ns r ha hf hne hs
    have hfold := evalFold_ok hf hs
    rcases args with _ | ⟨x, xs⟩
    · exact absurd rfl hne
    · exact ⟨by simp [evaluate, evalList, evalMinus, ha, hfold], foldSpec_sub_sum hs⟩

/-- C8 witness: the spec's example `(- 5)` yields `Number(-5)`. -/
theorem claim_C8_witness :
    evaluate (.list [.symbol "-", .number 5]) = .ok (.number (-5)) :=
  claim_C8_amended.1 (.number 5) 5 (by simp [evaluate]) (by decide)

/-- C3 counterexample: the claim quantifies over all 64-bit integers, but a
negative literal cannot be written: in "(+ -1 0)" the text "-1" lexes as
`Symbol("-1")` (a `-` always begins a symbol token), so the pipeline returns
the error "Invalid + operation" instead of `Number(-1)`. -/
theorem claim_C3_counterexample :
    run "(+ -1 0)" = .error (.error "Invalid + operation") ∧
    run "(+ -1 0)" ≠ .ok (.number (-1)) := by
  have ht : tokenize "(+ -1 0)" = .ok [Token.leftParen, Token.symbol "+",
      Token.symbol "-1", Token.number 0, Token.rightParen] := by
    simp [tokenize, tokenizeLoop, scanAux, tokStep, isDigitChar, isAlphaChar, isOpChar,
      rustIsWhitespace, digitsVal, digitVal, i64MaxNat, Except.map]
  have hp : parse [Token.leftParen, Token.symbol "+", Token.symbol "-1", Token.number 0,
      Token.rightParen] = .ok (.list [.symbol "+", .symbol "-1", .number 0]) := by
    simp [parse, parseExpr, parseFormLoop]
  have he : evaluate (.list [.symbol "+", .symbol "-1", .number 0]) =
      .error (.error "Invalid + operation") := by
    simp [evaluate, evalList, evalPlus, evalFold, opMsg]
  have h : run "(+ -1 0)" = .error (.error "Invalid + operation") := by
    simp [run, ht, hp, he]
  exact ⟨h, by rw [h]; simp⟩

/-- C3 (amended): for all nonnegative 64-bit integers a and b whose sum still
fits in `i64` (negative literals are not writable, and an overflowing sum
aborts), tokenizing the text "(+ a b)" with a and b written as decimal
literals, then parsing and evaluating, succeeds and yields `Number(a + b)`. -/
theorem claim_C3_amended (a b : Nat) (ha : a ≤ i64MaxNat) (hb : b ≤ i64MaxNat)
    (hab : a + b ≤ i64MaxNat) :
    run ("(+ " ++ String.mk (natDigits a) ++ " " ++ String.mk (natDigits b) ++ ")") =
      .ok (.number ((a : Int) + (b : Int))) := by
  have hdata : ("(+ " ++ String.mk (natDigits a) ++ " " ++ String.mk (natDigits b)
      ++ ")").data = '(' :: '+' :: ' ' :: (natDigits a ++ (' ' :: (natDigits b ++ [')']))) := by
    simp [String.data_append]
  have h1 : tokenizeLoop ('+' :: (' ' :: (natDigits a ++ (' ' :: (natDigits b ++ [')'])))))
      = (tokenizeLoop (' ' :: (natDigits a ++ (' ' :: (natDigits b ++ [')']))))).map
          (Token.symbol (String.mk ['+']) :: ·) :=
    tokenizeLoop_symbol_one (by decide) rfl
  have h2 : tokenizeLoop (' ' :: (natDigits a ++ (' ' :: (natDigits b ++ [')']))))
      = tokenizeLoop (natDigits a ++ (' ' :: (natDigits b ++ [')']))) :=
    tokenizeLoop_ws_one (by decide) (stopsAt_ws_natDigits a (' ' :: (natDigits b ++ [')'])))
  have h3 : tokenizeLoop (natDigits a ++ (' ' :: (natDigits b ++ [')'])))
      = (tokenizeLoop (' ' :: (natDigits b ++ [')']))).map
          (Token.number (Int.ofNat a) :: ·) :=
    tokenizeLoop_natDigits ha rfl
  have h4 : tokenizeLoop (' ' :: (natDigits b ++ [')']))
      = tokenizeLoop (natDigits b ++ [')']) :=
    tokenizeLoop_ws_one (by decide) (stopsAt_ws_natDigits b [')'])
  have h5 : tokenizeLoop (natDigits b ++ [')'])
      = (tokenizeLoop [')']).map (Token.number (Int.ofNat b) :: ·) :=
    tokenizeLoop_natDigits hb rfl
  have htok : tokenize ("(+ " ++ String.mk (natDigits a) ++ " " ++ String.mk (natDigits b)
      ++ ")") = .ok [Token.leftParen, Token.symbol "+", Token.number (Int.ofNat a),
        Token.number (Int.ofNat b), Token.rightParen] := by
    rw [tokenize, hdata, tokenizeLoop_lparen, h1, h2, h3, h4, h5, tokenizeLoop_rparen,
      tokenizeLoop_nil]
    rfl
  have hp : parse [Token.leftParen, Token.symbol "+", Token.number ((a : Int)),
      Token.number ((b : Int)), Token.rightParen] =
      .ok (.list [.symbol "+", .number ((a : Int)), .number ((b : Int))]) := by
    simp [parse, parseExpr, parseFormLoop]
  have hra : i64InRange ((a : Int)) = true := by
    simp only [i64MaxNat] at ha
    simp [i64InRange, i64Min, i64Max]
    omega
  have hrab : i64InRange ((a : Int) + (b : Int)) = true := by
    simp only [i64MaxNat] at hab
    simp [i64InRange, i64Min, i64Max]
    omega
  have he : evaluate (.list [.symbol "+", .number ((a : Int)), .number ((b : Int))]) =
      .ok (.number ((a : Int) + (b : Int))) := by
    simp [evaluate, evalList, evalPlus, evalFold, opApply, i64Add, hra, hrab]
  simp [run, htok, hp, he]

/-- C3 witness: the amended claim on a = 40, b = 2. -/
theorem claim_C3_witness :
    run ("(+ " ++ String.mk (natDigits 40) ++ " " ++ String.mk (natDigits 2) ++ ")") =
      .ok (.number (40 + 2)) :=
  claim_C3_amended 40 2 (by decide) (by decide) (by decide)
